import Mathlib

/-!
Verification of the project-generator repository against its specification.

The client side (static/script.js) is embedded directly from the source.
The generation pipeline (Decomposer, Executor, Validator Registry, Refiner,
Materializer, Driver) is described by the specification but its source is
not part of the checked tree, so those components are modelled from the
specification text; each such definition carries a doc comment starting
with "Modelled from the spec:".
-/

/-! ## Client-side embedding of static/script.js -/

/-- Splitting a character list on a separator character, with the
semantics of JS `String.prototype.split` on a one-character separator:
always at least one piece, empty pieces kept. -/
def splitOnChar (sep : Char) : List Char → List (List Char)
  | [] => [[]]
  | c :: cs =>
    if c = sep then [] :: splitOnChar sep cs
    else
      match splitOnChar sep cs with
      | [] => [[c]]
      | p :: ps => (c :: p) :: ps

/-- Embeds the JS idiom `file.split('/').pop()` as used throughout the
script: the piece after the last slash. -/
def basename (file : String) : String :=
  String.mk ((splitOnChar '/' file.data).getLastD [])

/-- True for a UTF-8 byte that `encodeURIComponent` leaves unescaped:
ASCII alphanumerics and `- _ . ! ~ * ( )` and the apostrophe (byte 39). -/
def isUnreservedByte (b : UInt8) : Bool :=
  (65 ≤ b && b ≤ 90) || (97 ≤ b && b ≤ 122) || (48 ≤ b && b ≤ 57) ||
  b == 45 || b == 95 || b == 46 || b == 33 || b == 126 || b == 42 ||
  b == 39 || b == 40 || b == 41

/-- Uppercase hexadecimal digit character, as produced by percent-encoding. -/
def hexDigitChar (n : Nat) : Char :=
  if n < 10 then Char.ofNat (48 + n) else Char.ofNat (55 + n)

/-- Percent-encoding of a byte sequence: unreserved bytes pass through,
every other byte becomes `%` followed by two uppercase hex digits. -/
def encodeBytes : List UInt8 → List Char
  | [] => []
  | b :: bs =>
    (if isUnreservedByte b then [Char.ofNat b.toNat]
     else [Char.ofNat 37, hexDigitChar (b.toNat / 16), hexDigitChar (b.toNat % 16)]) ++
    encodeBytes bs

/-- The UTF-8 encoding of one Unicode code point. -/
def charUTF8 (c : Char) : List UInt8 :=
  let n := c.toNat
  if n < 128 then [UInt8.ofNat n]
  else if n < 2048 then
    [UInt8.ofNat (192 + n / 64), UInt8.ofNat (128 + n % 64)]
  else if n < 65536 then
    [UInt8.ofNat (224 + n / 4096), UInt8.ofNat (128 + (n / 64) % 64),
     UInt8.ofNat (128 + n % 64)]
  else
    [UInt8.ofNat (240 + n / 262144), UInt8.ofNat (128 + (n / 4096) % 64),
     UInt8.ofNat (128 + (n / 64) % 64), UInt8.ofNat (128 + n % 64)]

/-- Embeds the JS global `encodeURIComponent`: percent-encode the UTF-8
bytes of the string, leaving only the unreserved set unescaped. -/
def encodeURIComponent (s : String) : String :=
  String.mk (encodeBytes (s.data.foldr (fun c bs => charUTF8 c ++ bs) []))

/-- An anchor element as built by `addDownloadLink` in script.js:
its `href`, its visible text and its `download` attribute. -/
structure DownloadLink where
  href : String
  text : String
  download : String
deriving DecidableEq, Repr

/-- Embeds the body of `addDownloadLink(file, label)` in script.js:
`href` is `/download/` plus the encoded path, the text is
`label || file.split('/').pop()` (a missing or empty label is falsy in JS),
and the `download` attribute is the basename. -/
def mkDownloadLink (file : String) (label : Option String) : DownloadLink :=
  { href := "/download/" ++ encodeURIComponent file
  , text := match label with
            | some l => if l = "" then basename file else l
            | none => basename file
  , download := basename file }

/-- Embeds `addDownloadLink`: appends exactly one anchor to the
`downloadLinks` container. -/
def addDownloadLink (links : List DownloadLink) (file : String)
    (label : Option String) : List DownloadLink :=
  links ++ [mkDownloadLink file label]

/-- The JSON body of a successful `/process` response, exactly the three
fields the client reads in the submit handler. -/
structure ServerResponse where
  refined_output : String
  created_files : List String
  log_file : String

/-- Tab state: the `.tab-btn` buttons as (dataset.tab, has class active)
pairs and the `.tab-content` elements as (id, has class active) pairs. -/
structure TabState where
  buttons : List (String × Bool)
  contents : List (String × Bool)
deriving DecidableEq

/-- Removing the class `active` from every element of a collection. -/
def deactivateAll (l : List (String × Bool)) : List (String × Bool) :=
  l.map (fun p => (p.1, false))

/-- After removing `active` everywhere, `document.getElementById(tabId)`
finds the first element with that id and `classList.add` marks it. -/
def activateFirst (tabId : String) : List (String × Bool) → List (String × Bool)
  | [] => []
  | (id, _) :: rest =>
    if id = tabId then (id, true) :: deactivateAll rest
    else (id, false) :: activateFirst tabId rest

/-- Embeds `activateTab(button)` in script.js for the button at index `i`:
every button and every tab content loses `active`, then the clicked button
and the content whose id is its `dataset.tab` gain it. -/
def activateTab (st : TabState) (i : Nat) : TabState :=
  match st.buttons[i]? with
  | none => st
  | some b =>
    { buttons := (deactivateAll st.buttons).set i (b.1, true)
    , contents := activateFirst b.1 st.contents }

/-- The DOM state the submit handler reads and writes. -/
structure ClientState where
  loadingHidden : Bool
  resultHidden : Bool
  outputText : String
  fileListItems : List String
  downloadLinks : List DownloadLink
  alertShown : Bool
  tabs : TabState

/-- How one form submission can end, matching the branches of the
try/catch in script.js: the fetch itself throws, the response status is
not ok (the handler then throws), the body fails to parse as JSON, or a
parsed successful response arrives. -/
inductive FetchOutcome where
  | fetchError
  | httpNotOk
  | jsonParseError
  | success (data : ServerResponse)

/-- Embeds the success path of the submit handler: set the output text,
clear and repopulate the file list with basenames, clear and repopulate
the download links (one per created file, then the log-file link), show
the result, hide the spinner, activate the first tab. -/
def handleSuccess (st : ClientState) (data : ServerResponse) : ClientState :=
  { st with
    outputText := data.refined_output
    fileListItems := data.created_files.map basename
    downloadLinks :=
      addDownloadLink
        (data.created_files.foldl (fun ls f => addDownloadLink ls f none) [])
        data.log_file (some "Log File")
    resultHidden := false
    loadingHidden := true
    tabs := activateTab st.tabs 0 }

/-- Embeds the whole submit handler in script.js: show the spinner and
hide the result section, then run the success path on a parsed response,
or on any thrown error alert the user and hide the spinner (the result
section stays hidden). -/
def submitHandler (st : ClientState) (outcome : FetchOutcome) : ClientState :=
  let st1 := { st with loadingHidden := false, resultHidden := true }
  match outcome with
  | .success data => handleSuccess st1 data
  | _ => { st1 with alertShown := true, loadingHidden := true }

/-! ## Generation pipeline, modelled from the specification

The pipeline source (main.py, app.py) is not part of the checked tree;
the definitions below follow the specification text (sections 3, 4 and 8).
-/

/-- Modelled from the spec: a SubTask produced by the Objective Decomposer
(main.py is not under src/): sequence id, title, description, optional
target path and language hint. -/
structure SubTask where
  id : Nat
  title : String
  description : String
  targetPath : Option String
  languageHint : Option String
deriving DecidableEq, Repr

/-- Modelled from the spec: the error raised when the model returns empty,
malformed or non-parseable decomposition output after retries. -/
inductive DecompositionError where
  | emptyOutput
  | unparseable
deriving DecidableEq, Repr

/-- Modelled from the spec: `decompose(objective)` for the Objective
Decomposer, whose source (main.py) is not under src/. The model call is
abstracted by its parsed outcome `raw`: `none` when the output is
malformed or non-parseable after the shared retry policy, otherwise the
parsed task list. An empty list raises `DecompositionError`; a list above
the configured maximum is truncated. -/
def decompose (raw : Option (List SubTask)) (maxTasks : Nat) :
    Except DecompositionError (List SubTask) :=
  match raw with
  | none => .error .unparseable
  | some [] => .error .emptyOutput
  | some (t :: ts) => .ok ((t :: ts).take maxTasks)

/-- Modelled from the spec: one (path, language, content) file entry
extracted from a model response. -/
structure FileEntry where
  path : String
  languageHint : Option String
  content : String
deriving DecidableEq, Repr

/-- Modelled from the spec: the validation status recorded on a
GenerationResult: passed, failed, or skipped because no validator is
registered for the language. -/
inductive ValidationStatus where
  | passed
  | failed
  | skippedNoValidator
deriving DecidableEq, Repr

/-- Modelled from the spec: the Task Executor result for one SubTask. -/
structure GenerationResult where
  subtaskId : Nat
  rawOutput : String
  entries : List FileEntry
  status : ValidationStatus
  attempts : Nat
deriving DecidableEq, Repr

/-- Modelled from the spec: a validator verdict, ok or the first
structural error found. -/
inductive ValidationResult where
  | ok
  | error (diagnostic : String)
deriving DecidableEq, Repr

/-- Modelled from the spec: a syntax-level parse standing in for the
language parsers of the Validator Registry (main.py is not under src/):
checks that round and curly brackets nest properly, reporting the first
structural error found. -/
def bracketCheckAux : List Char → List Char → ValidationResult
  | [], [] => .ok
  | [], _ => .error "unclosed bracket"
  | c :: cs, stack =>
    if c = '(' || c = '{' then bracketCheckAux cs (c :: stack)
    else if c = ')' then
      match stack with
      | '(' :: rest => bracketCheckAux cs rest
      | _ => .error "unmatched closing bracket"
    else if c = '}' then
      match stack with
      | '{' :: rest => bracketCheckAux cs rest
      | _ => .error "unmatched closing bracket"
    else bracketCheckAux cs stack

/-- Modelled from the spec: a pure syntax check for one language. -/
def bracketCheck (content : String) : ValidationResult :=
  bracketCheckAux content.data []

/-- Modelled from the spec: the Validator Registry, a mapping from a
language identifier to a pure syntax/lint check function; unknown
languages have no entry. -/
def validatorRegistry (language : String) : Option (String → ValidationResult) :=
  if language = "json" || language = "python" || language = "javascript" then
    some bracketCheck
  else
    none

/-- Modelled from the spec: the outcome of `validate(language, content)`:
ok, a diagnostic, or the explicitly represented no-validator state. -/
inductive ValidateOutcome where
  | ok
  | error (diagnostic : String)
  | skippedNoValidator
deriving DecidableEq, Repr

/-- Modelled from the spec: `validate(language, content)` dispatches over
the registry; absence of a validator is a distinct state, not a failure. -/
def validate (language content : String) : ValidateOutcome :=
  match validatorRegistry language with
  | some v =>
    match v content with
    | .ok => .ok
    | .error d => .error d
  | none => .skippedNoValidator

/-- Modelled from the spec: a file entry as seen by the Refiner, tagged
with whether the GenerationResult it came from passed validation. -/
structure TaggedEntry where
  entry : FileEntry
  passing : Bool
deriving DecidableEq, Repr

/-- Modelled from the spec: collision resolution for one path (section
4.4a): among the entries for that path, in task sequence order, the later
one wins unless it is flagged failed, in which case the latest passing
version is preferred if one exists. -/
def resolvePath (p : String) (es : List TaggedEntry) : Option FileEntry :=
  match ((es.filter (fun te => te.entry.path = p)).filter
      (fun te => te.passing)).getLast? with
  | some te => some te.entry
  | none =>
    ((es.filter (fun te => te.entry.path = p)).getLast?).map (fun te => te.entry)

/-- First-occurrence deduplication of a path list. -/
def dedupPaths : List String → List String
  | [] => []
  | p :: ps => p :: (dedupPaths ps).filter (fun q => q ≠ p)

/-- Modelled from the spec: the file entries that survive the invariant
of section 3: entries with an empty path are dropped. -/
def keptEntries (es : List TaggedEntry) : List TaggedEntry :=
  es.filter (fun te => te.entry.path ≠ "")

/-- Modelled from the spec: the final file set of a RefinedOutput: empty
paths are dropped and path collisions are resolved per section 4.4a, so
the invariant of section 3 (paths unique and non-empty) holds before
materialization. -/
def finalizeEntries (es : List TaggedEntry) : List FileEntry :=
  (dedupPaths ((keptEntries es).map (fun te => te.entry.path))).filterMap
    (fun p => resolvePath p (keptEntries es))

/-- Modelled from the spec: the RefinedOutput data model: narrative text
and a finalized file-entry set. -/
structure RefinedOutput where
  narrative : String
  entries : List FileEntry
deriving DecidableEq, Repr

/-- Modelled from the spec: `refine(...)` on a parseable model output:
the proposed narrative together with the finalized (deduplicated,
non-empty-path) file set. -/
def refine (narrative : String) (proposed : List TaggedEntry) : RefinedOutput :=
  { narrative := narrative, entries := finalizeEntries proposed }

/-- Modelled from the spec: whether a GenerationResult counts as passing
for pipeline purposes: failed is excluded, skipped-no-validator is
treated as a pass. -/
def isPassing (r : GenerationResult) : Bool :=
  r.status ≠ ValidationStatus.failed

/-- Modelled from the spec: the degraded RefinedOutput built mechanically
when the Refiner exhausts its retries: all passing GenerationResults are
concatenated without narrative synthesis, and their file entries are
merged into one path-unique set. -/
def fallbackMerge (results : List GenerationResult) : RefinedOutput :=
  let passing := results.filter isPassing
  { narrative :=
      String.intercalate "\n\n" (passing.map (fun r => r.rawOutput))
  , entries :=
      finalizeEntries
        ((passing.map (fun r => r.entries.map (fun e => TaggedEntry.mk e true))).flatten) }

/-- Modelled from the spec: the externally visible RunResult: refined
narrative, created file paths, log file path. -/
structure RunResult where
  refined_output : String
  created_files : List String
  log_file : String
deriving DecidableEq, Repr

/-- A file system modelled as an association list from absolute path to
content; later writes are consed on and shadow earlier ones. -/
def writeFile (fs : List (String × String)) (p c : String) :
    List (String × String) :=
  (p, c) :: fs

/-- Reading a path back from the modelled file system. -/
def readFile (fs : List (String × String)) (p : String) : Option String :=
  (fs.find? (fun q => q.1 = p)).map (fun q => q.2)

/-- Modelled from the spec: the name of the single log file the
Materializer serializes into the run directory. -/
def logFileName : String := "run_log.txt"

/-- Modelled from the spec: `materialize(refinedOutput, runLog)` for the
File Materializer (main.py is not under src/): writes every file entry at
its path under the fresh run directory, writes the serialized run log
next to them, and returns the RunResult listing the created paths and the
log path. -/
def materialize (runDir : String) (ro : RefinedOutput) (logContent : String)
    (fs : List (String × String)) :
    (List (String × String)) × RunResult :=
  let fs1 := ro.entries.foldl
    (fun acc e => writeFile acc (runDir ++ "/" ++ e.path) e.content) fs
  let logPath := runDir ++ "/" ++ logFileName
  let fs2 := writeFile fs1 logPath logContent
  (fs2,
   { refined_output := ro.narrative
   , created_files := ro.entries.map (fun e => runDir ++ "/" ++ e.path)
   , log_file := logPath })

/-- Modelled from the spec: the terminal state of one pipeline run:
`Done` with a RunResult and the resulting file system, or `Failed`. -/
inductive RunOutcome where
  | done (r : RunResult) (fs : List (String × String))
  | failed (stage : String)
deriving Repr

/-- Modelled from the spec: the Refining stage: a parseable Refiner model
output yields a refined result; exhausting the retries (`none`) falls
back to the mechanical merge, so a RefinedOutput is always produced. -/
def refineStage (results : List GenerationResult)
    (refinerOut : Option (String × List TaggedEntry)) : RefinedOutput :=
  match refinerOut with
  | some (narrative, proposed) => refine narrative proposed
  | none => fallbackMerge results

/-- Modelled from the spec: the Pipeline Driver state machine: Decomposing
then Executing then Refining then Materializing then Done; only a
decomposition failure is fatal here, Executor and Refiner failures
degrade and continue. Model calls are abstracted by their outcomes:
`decompRaw` for the Decomposer, `execute` for the per-task Executor,
`refinerOut` for the Refiner. -/
def runPipeline (maxTasks : Nat) (decompRaw : Option (List SubTask))
    (execute : SubTask → GenerationResult)
    (refinerOut : Option (String × List TaggedEntry))
    (runDir logContent : String) (fs : List (String × String)) : RunOutcome :=
  match decompose decompRaw maxTasks with
  | .error _ => .failed "Decomposing"
  | .ok tasks =>
    let results := tasks.map execute
    let ro := refineStage results refinerOut
    let (fs2, r) := materialize runDir ro logContent fs
    .done r fs2

/-! ## Helper lemmas -/

theorem foldl_addDownloadLink (files : List String) (acc : List DownloadLink) :
    files.foldl (fun ls f => addDownloadLink ls f none) acc
      = acc ++ files.map (fun f => mkDownloadLink f none) := by
  induction files generalizing acc with
  | nil => simp
  | cons f fs ih => rw [List.foldl_cons, ih]; simp [addDownloadLink]

set_option maxRecDepth 10000 in
theorem unreservedByte_ne_slash (b : UInt8) (h : isUnreservedByte b = true) :
    Char.ofNat b.toNat ≠ '/' := by
  have key : ∀ f : Fin 256,
      isUnreservedByte ⟨BitVec.ofFin f⟩ = true →
        Char.ofNat (UInt8.mk (BitVec.ofFin f)).toNat ≠ '/' := by
    decide
  obtain ⟨⟨f⟩⟩ := b
  exact key f h

theorem hexDigitChar_ne_slash {n : Nat} (h : n < 16) : hexDigitChar n ≠ '/' := by
  unfold hexDigitChar
  interval_cases n <;> decide

theorem encodeBytes_ne_slash (bs : List UInt8) : ∀ c ∈ encodeBytes bs, c ≠ '/' := by
  induction bs with
  | nil => intro c hc; simp [encodeBytes] at hc
  | cons b rest ih =>
    intro c hc
    unfold encodeBytes at hc
    rcases List.mem_append.1 hc with h1 | h2
    · by_cases hu : isUnreservedByte b
      · rw [if_pos hu] at h1
        simp only [List.mem_singleton] at h1
        subst h1
        exact unreservedByte_ne_slash b hu
      · rw [if_neg hu] at h1
        have hlt : b.toNat < 256 := b.toBitVec.isLt
        simp only [List.mem_cons, List.mem_singleton, List.not_mem_nil, or_false] at h1
        rcases h1 with h | h | h
        · subst h; decide
        · subst h
          exact hexDigitChar_ne_slash ((Nat.div_lt_iff_lt_mul (by omega)).2 (by omega))
        · subst h
          exact hexDigitChar_ne_slash (Nat.mod_lt _ (by omega))
    · exact ih c h2

theorem encodeURIComponent_ne_slash (s : String) :
    ∀ c ∈ (encodeURIComponent s).data, c ≠ '/' := by
  intro c hc
  exact encodeBytes_ne_slash _ c hc

theorem filter_deactivateAll (l : List (String × Bool)) :
    (deactivateAll l).filter (fun p => p.2) = [] := by
  induction l with
  | nil => rfl
  | cons a tl ih =>
    show ((a.1, false) :: deactivateAll tl).filter (fun p => p.2) = []
    rw [List.filter_cons]
    simpa using ih

theorem filter_set_true (l : List (String × Bool)) (i : Nat) (x : String)
    (h : i < l.length) :
    (((deactivateAll l).set i (x, true)).filter (fun p => p.2)) = [(x, true)] := by
  induction l generalizing i with
  | nil => simp at h
  | cons a tl ih =>
    cases i with
    | zero =>
      show ((x, true) :: deactivateAll tl).filter (fun p => p.2) = [(x, true)]
      rw [List.filter_cons]
      simp [filter_deactivateAll]
    | succ n =>
      have hn : n < tl.length := Nat.lt_of_succ_lt_succ h
      show (((a.1, false) :: (deactivateAll tl).set n (x, true)).filter (fun p => p.2))
        = [(x, true)]
      rw [List.filter_cons]
      simpa using ih n hn

theorem activateFirst_filter (tabId : String) (l : List (String × Bool))
    (h : tabId ∈ l.map Prod.fst) :
    ((activateFirst tabId l).filter (fun p => p.2)) = [(tabId, true)] := by
  induction l with
  | nil => simp at h
  | cons a tl ih =>
    obtain ⟨id, bb⟩ := a
    by_cases hid : id = tabId
    · subst hid
      simp [activateFirst, List.filter_cons, filter_deactivateAll]
    · have h2 : tabId ∈ tl.map Prod.fst := by
        rcases List.mem_cons.1 h with h | h
        · exact absurd h.symm hid
        · exact h
      simp [activateFirst, hid, List.filter_cons, ih h2]

theorem deactivateAll_idem (l : List (String × Bool)) :
    deactivateAll (deactivateAll l) = deactivateAll l := by
  unfold deactivateAll
  rw [List.map_map]
  rfl

theorem activateFirst_idem (tabId : String) (l : List (String × Bool)) :
    activateFirst tabId (activateFirst tabId l) = activateFirst tabId l := by
  induction l with
  | nil => rfl
  | cons a tl ih =>
    obtain ⟨id, bb⟩ := a
    by_cases hid : id = tabId
    · subst hid
      simp [activateFirst, deactivateAll_idem]
    · simp [activateFirst, hid, ih]

theorem set_eq_of_getElem? {α : Type} (l : List α) (i : Nat) (a : α)
    (h : l[i]? = some a) : l.set i a = l := by
  induction l generalizing i with
  | nil => simp at h
  | cons x tl ih =>
    cases i with
    | zero =>
      simp only [List.getElem?_cons_zero, Option.some.injEq] at h
      subst h
      rfl
    | succ n =>
      simp only [List.getElem?_cons_succ] at h
      show x :: tl.set n a = x :: tl
      rw [ih n h]


/-! ## Claim theorems -/

/-- C1: for every successful JSON response to the form submission, the
client consumes precisely the shape with the three fields refined_output,
created_files, log_file: refined_output becomes the output text verbatim,
exactly one file-list entry is created per element of created_files, and
log_file is rendered as a download link appended after the per-file
links. -/
theorem client_consumes_response_shape (st : ClientState) (data : ServerResponse) :
    (submitHandler st (FetchOutcome.success data)).outputText = data.refined_output ∧
    (submitHandler st (FetchOutcome.success data)).fileListItems
      = data.created_files.map basename ∧
    (submitHandler st (FetchOutcome.success data)).downloadLinks
      = data.created_files.map (fun f => mkDownloadLink f none)
        ++ [mkDownloadLink data.log_file (some "Log File")] := by
  refine ⟨rfl, rfl, ?_⟩
  show addDownloadLink
      (data.created_files.foldl (fun ls f => addDownloadLink ls f none) [])
      data.log_file (some "Log File")
    = data.created_files.map (fun f => mkDownloadLink f none)
      ++ [mkDownloadLink data.log_file (some "Log File")]
  rw [foldl_addDownloadLink]
  simp [addDownloadLink]

/-- C2: whenever the fetch throws, the response status is not ok, or the
body is not parseable JSON, the client alerts, hides the loading
indicator, keeps the result section hidden, and displays no result
content: output text, file list and download links are untouched. -/
theorem client_error_path (st : ClientState) (outcome : FetchOutcome)
    (h : ∀ d, outcome ≠ FetchOutcome.success d) :
    (submitHandler st outcome).alertShown = true ∧
    (submitHandler st outcome).loadingHidden = true ∧
    (submitHandler st outcome).resultHidden = true ∧
    (submitHandler st outcome).outputText = st.outputText ∧
    (submitHandler st outcome).fileListItems = st.fileListItems ∧
    (submitHandler st outcome).downloadLinks = st.downloadLinks := by
  cases outcome with
  | success d => exact absurd rfl (h d)
  | fetchError => exact ⟨rfl, rfl, rfl, rfl, rfl, rfl⟩
  | httpNotOk => exact ⟨rfl, rfl, rfl, rfl, rfl, rfl⟩
  | jsonParseError => exact ⟨rfl, rfl, rfl, rfl, rfl, rfl⟩

theorem client_error_path_witness :
    (submitHandler ⟨true, true, "out", ["x"], [], false, ⟨[], []⟩⟩
        FetchOutcome.fetchError).alertShown = true ∧
    (submitHandler ⟨true, true, "out", ["x"], [], false, ⟨[], []⟩⟩
        FetchOutcome.fetchError).loadingHidden = true ∧
    (submitHandler ⟨true, true, "out", ["x"], [], false, ⟨[], []⟩⟩
        FetchOutcome.fetchError).resultHidden = true ∧
    (submitHandler ⟨true, true, "out", ["x"], [], false, ⟨[], []⟩⟩
        FetchOutcome.fetchError).outputText = "out" ∧
    (submitHandler ⟨true, true, "out", ["x"], [], false, ⟨[], []⟩⟩
        FetchOutcome.fetchError).fileListItems = ["x"] ∧
    (submitHandler ⟨true, true, "out", ["x"], [], false, ⟨[], []⟩⟩
        FetchOutcome.fetchError).downloadLinks = [] :=
  client_error_path ⟨true, true, "out", ["x"], [], false, ⟨[], []⟩⟩
    FetchOutcome.fetchError (fun _ h => FetchOutcome.noConfusion h)

/-- C8 counterexample: the claim says the visible text equals the label
whenever a label is provided; the code uses the falsy-or idiom
`label || file.split('/').pop()`, so a provided empty label yields the
basename instead. -/
theorem addDownloadLink_empty_label_counterexample :
    (mkDownloadLink "a/b.txt" (some "")).text = "b.txt" ∧
    (mkDownloadLink "a/b.txt" (some "")).text ≠ "" := by
  constructor
  · decide
  · decide

/-- C8 (amended): `addDownloadLink` appends exactly one anchor whose href
is `/download/` plus `encodeURIComponent(file)` (so the encoded path
contains no slash and travels as one URL path segment), whose download
attribute is the basename, and whose text is the label when one is
provided and non-empty, and the basename otherwise (a missing or empty
label is falsy in JS). -/
theorem addDownloadLink_spec (f : String) (l : Option String)
    (links : List DownloadLink) :
    addDownloadLink links f l = links ++ [mkDownloadLink f l] ∧
    (mkDownloadLink f l).href = "/download/" ++ encodeURIComponent f ∧
    (∀ c ∈ (encodeURIComponent f).data, c ≠ '/') ∧
    (mkDownloadLink f l).download = basename f ∧
    (∀ s, l = some s → s ≠ "" → (mkDownloadLink f l).text = s) ∧
    (l = none → (mkDownloadLink f l).text = basename f) ∧
    (l = some "" → (mkDownloadLink f l).text = basename f) := by
  refine ⟨rfl, rfl, encodeURIComponent_ne_slash f, rfl, ?_, ?_, ?_⟩
  · intro s hs hne
    subst hs
    simp [mkDownloadLink, hne]
  · intro hn
    subst hn
    rfl
  · intro hs
    subst hs
    rfl

theorem addDownloadLink_spec_witness :
    (mkDownloadLink "a/b c.txt" (some "Log File")).href
      = "/download/" ++ encodeURIComponent "a/b c.txt" ∧
    (mkDownloadLink "a/b c.txt" (some "Log File")).download = basename "a/b c.txt" ∧
    (mkDownloadLink "a/b c.txt" (some "Log File")).text = "Log File" :=
  ⟨(addDownloadLink_spec "a/b c.txt" (some "Log File") []).2.1,
   (addDownloadLink_spec "a/b c.txt" (some "Log File") []).2.2.2.1,
   (addDownloadLink_spec "a/b c.txt" (some "Log File") []).2.2.2.2.1
     "Log File" rfl (by decide)⟩

/-- C9: on every successful response the file list and download-links
containers are emptied and repopulated: the file list holds exactly one
basename per created file, the downloads container holds one link per
created file plus the log-file link last, and the repopulated contents do
not depend on the previous client state, so repeated submissions never
accumulate stale entries. -/
theorem client_repopulates_lists (st : ClientState) (data : ServerResponse) :
    (submitHandler st (FetchOutcome.success data)).fileListItems.length
      = data.created_files.length ∧
    (submitHandler st (FetchOutcome.success data)).fileListItems
      = data.created_files.map basename ∧
    (submitHandler st (FetchOutcome.success data)).downloadLinks.length
      = data.created_files.length + 1 ∧
    (submitHandler st (FetchOutcome.success data)).downloadLinks.getLast?
      = some (mkDownloadLink data.log_file (some "Log File")) ∧
    (∀ st2 : ClientState,
      (submitHandler st2 (FetchOutcome.success data)).fileListItems
        = (submitHandler st (FetchOutcome.success data)).fileListItems ∧
      (submitHandler st2 (FetchOutcome.success data)).downloadLinks
        = (submitHandler st (FetchOutcome.success data)).downloadLinks) := by
  have hdl : ∀ st3 : ClientState,
      (submitHandler st3 (FetchOutcome.success data)).downloadLinks
        = data.created_files.map (fun f => mkDownloadLink f none)
          ++ [mkDownloadLink data.log_file (some "Log File")] := by
    intro st3
    show addDownloadLink
        (data.created_files.foldl (fun ls f => addDownloadLink ls f none) [])
        data.log_file (some "Log File")
      = data.created_files.map (fun f => mkDownloadLink f none)
        ++ [mkDownloadLink data.log_file (some "Log File")]
    rw [foldl_addDownloadLink]
    simp [addDownloadLink]
  refine ⟨by simp [submitHandler, handleSuccess], rfl, ?_, ?_, ?_⟩
  · rw [hdl st]
    simp
  · rw [hdl st]
    exact List.getLast?_concat _
  · intro st2
    exact ⟨rfl, by rw [hdl st2, hdl st]⟩

/-- C10: after activateTab on a tab button, exactly one button (the
clicked one) carries the active class and exactly one tab content (the
one whose id is that button's dataset.tab) carries it; activating again
changes nothing (idempotence); and every successful submission activates
the first tab button. -/
theorem activateTab_one_active (ts : TabState) (i : Nat) (b : String × Bool)
    (hb : ts.buttons[i]? = some b)
    (hc : b.1 ∈ ts.contents.map Prod.fst) :
    ((activateTab ts i).buttons.filter (fun p => p.2)) = [(b.1, true)] ∧
    (activateTab ts i).buttons[i]? = some (b.1, true) ∧
    ((activateTab ts i).contents.filter (fun p => p.2)) = [(b.1, true)] ∧
    activateTab (activateTab ts i) i = activateTab ts i ∧
    (∀ (st : ClientState) (data : ServerResponse),
      (submitHandler st (FetchOutcome.success data)).tabs = activateTab st.tabs 0) := by
  have hi : i < ts.buttons.length := by
    by_contra hlt
    push_neg at hlt
    rw [List.getElem?_eq_none hlt] at hb
    exact Option.noConfusion hb
  have hact : activateTab ts i
      = { buttons := (deactivateAll ts.buttons).set i (b.1, true)
        , contents := activateFirst b.1 ts.contents } := by
    unfold activateTab
    rw [hb]
  have hlen : i < (deactivateAll ts.buttons).length := by
    unfold deactivateAll
    rw [List.length_map]
    exact hi
  have hget2 : ((deactivateAll ts.buttons).set i (b.1, true))[i]? = some (b.1, true) :=
    List.getElem?_set_self hlen
  refine ⟨?_, ?_, ?_, ?_, ?_⟩
  · rw [hact]
    exact filter_set_true ts.buttons i b.1 hi
  · rw [hact]
    exact hget2
  · rw [hact]
    exact activateFirst_filter b.1 ts.contents hc
  · rw [hact]
    unfold activateTab
    rw [hget2]
    refine congrArg₂ TabState.mk ?_ ?_
    · show (deactivateAll ((deactivateAll ts.buttons).set i (b.1, true))).set i (b.1, true)
        = (deactivateAll ts.buttons).set i (b.1, true)
      unfold deactivateAll
      rw [List.map_set, List.set_set]
      exact congrArg (fun l => l.set i (b.1, true)) (deactivateAll_idem ts.buttons)
    · exact activateFirst_idem b.1 ts.contents
  · intro st data
    rfl

theorem activateTab_one_active_witness :
    ((activateTab ⟨[("output", false), ("files", true)],
        [("output", true), ("files", false)]⟩ 0).buttons.filter (fun p => p.2))
      = [("output", true)] ∧
    (activateTab ⟨[("output", false), ("files", true)],
        [("output", true), ("files", false)]⟩ 0).buttons[0]? = some ("output", true) ∧
    ((activateTab ⟨[("output", false), ("files", true)],
        [("output", true), ("files", false)]⟩ 0).contents.filter (fun p => p.2))
      = [("output", true)] ∧
    activateTab (activateTab ⟨[("output", false), ("files", true)],
        [("output", true), ("files", false)]⟩ 0) 0
      = activateTab ⟨[("output", false), ("files", true)],
        [("output", true), ("files", false)]⟩ 0 ∧
    (∀ (st : ClientState) (data : ServerResponse),
      (submitHandler st (FetchOutcome.success data)).tabs = activateTab st.tabs 0) :=
  activateTab_one_active
    ⟨[("output", false), ("files", true)], [("output", true), ("files", false)]⟩
    0 ("output", false) (by decide) (by decide)

/-- C3: decompose either returns a non-empty ordered sequence of SubTasks
of length between 1 and the configured maximum, or fails with
DecompositionError; no input yields an empty sequence. -/
theorem decompose_nonempty_bounded (raw : Option (List SubTask)) (maxTasks : Nat)
    (ts : List SubTask) (hmax : 1 ≤ maxTasks)
    (h : decompose raw maxTasks = Except.ok ts) :
    1 ≤ ts.length ∧ ts.length ≤ maxTasks ∧ ts ≠ [] := by
  cases raw with
  | none => simp [decompose] at h
  | some l =>
    cases l with
    | nil => simp [decompose] at h
    | cons t rest =>
      simp only [decompose, Except.ok.injEq] at h
      subst h
      have hlen : ((t :: rest).take maxTasks).length = min maxTasks (t :: rest).length :=
        List.length_take maxTasks (t :: rest)
      have hcons : (t :: rest).length = rest.length + 1 := List.length_cons t rest
      refine ⟨?_, ?_, ?_⟩
      · rw [hlen, hcons]
        omega
      · rw [hlen]
        omega
      · intro hnil
        rw [hnil] at hlen
        rw [hcons] at hlen
        simp at hlen
        omega

theorem decompose_nonempty_bounded_witness :
    1 ≤ ([⟨0, "t", "d", none, none⟩] : List SubTask).length ∧
    ([⟨0, "t", "d", none, none⟩] : List SubTask).length ≤ 3 ∧
    ([⟨0, "t", "d", none, none⟩] : List SubTask) ≠ [] :=
  decompose_nonempty_bounded (some [⟨0, "t", "d", none, none⟩]) 3
    [⟨0, "t", "d", none, none⟩] (by decide) rfl

/-- C7: every registered validator is a deterministic pure function of its
content: applying it to the same content twice yields the identical
verdict both times, and a registered language never reports the
no-validator state. -/
theorem validator_deterministic (language content : String)
    (v : String → ValidationResult)
    (hv : validatorRegistry language = some v) :
    v content = v content ∧
    validate language content = validate language content ∧
    validate language content ≠ ValidateOutcome.skippedNoValidator := by
  refine ⟨rfl, rfl, ?_⟩
  unfold validate
  rw [hv]
  cases hvc : v content with
  | ok => simp [hvc]
  | error d => simp [hvc]

theorem validator_deterministic_witness :
    bracketCheck "(x)" = bracketCheck "(x)" ∧
    validate "json" "(x)" = validate "json" "(x)" ∧
    validate "json" "(x)" ≠ ValidateOutcome.skippedNoValidator :=
  validator_deterministic "json" "(x)" bracketCheck rfl

theorem dedupPaths_nodup (l : List String) : (dedupPaths l).Nodup := by
  induction l with
  | nil => exact List.nodup_nil
  | cons p ps ih =>
    refine List.nodup_cons.2 ⟨?_, ?_⟩
    · intro hmem
      have := List.mem_filter.1 hmem
      simp at this
    · exact List.Nodup.filter _ ih

theorem mem_dedupPaths {x : String} {l : List String} (h : x ∈ dedupPaths l) :
    x ∈ l := by
  induction l with
  | nil => simp [dedupPaths] at h
  | cons p ps ih =>
    rcases List.mem_cons.1 h with h | h
    · exact h ▸ List.mem_cons_self p ps
    · exact List.mem_cons_of_mem p (ih (List.mem_filter.1 h).1)

theorem dedupPaths_mem {x : String} {l : List String} (h : x ∈ l) :
    x ∈ dedupPaths l := by
  induction l with
  | nil => simp at h
  | cons p ps ih =>
    by_cases hx : x = p
    · exact hx ▸ List.mem_cons_self p (dedupPaths ps |>.filter (fun q => q ≠ p))
    · rcases List.mem_cons.1 h with h | h
      · exact absurd h hx
      · exact List.mem_cons_of_mem p
          (List.mem_filter.2 ⟨ih h, by simpa using hx⟩)

theorem resolvePath_path {p : String} {es : List TaggedEntry} {e : FileEntry}
    (h : resolvePath p es = some e) : e.path = p := by
  unfold resolvePath at h
  cases hl : ((es.filter (fun te => te.entry.path = p)).filter
      (fun te => te.passing)).getLast? with
  | some te =>
    rw [hl] at h
    have h2 : some te.entry = some e := h
    have hmem := List.mem_of_getLast?_eq_some hl
    have hmem2 := (List.mem_filter.1 hmem).1
    have hp := (List.mem_filter.1 hmem2).2
    cases h2
    exact of_decide_eq_true hp
  | none =>
    rw [hl] at h
    cases hl2 : (es.filter (fun te => te.entry.path = p)).getLast? with
    | none =>
      rw [hl2] at h
      exact Option.noConfusion h
    | some te =>
      rw [hl2] at h
      have h2 : some te.entry = some e := h
      have hmem := List.mem_of_getLast?_eq_some hl2
      have hp := (List.mem_filter.1 hmem).2
      cases h2
      exact of_decide_eq_true hp

theorem resolvePath_mem {p : String} {es : List TaggedEntry} {e : FileEntry}
    (h : resolvePath p es = some e) : ∃ te ∈ es, te.entry = e := by
  unfold resolvePath at h
  cases hl : ((es.filter (fun te => te.entry.path = p)).filter
      (fun te => te.passing)).getLast? with
  | some te =>
    rw [hl] at h
    have h2 : some te.entry = some e := h
    have hmem := List.mem_of_getLast?_eq_some hl
    have hmem2 := (List.mem_filter.1 hmem).1
    have hmem3 := (List.mem_filter.1 hmem2).1
    cases h2
    exact ⟨te, hmem3, rfl⟩
  | none =>
    rw [hl] at h
    cases hl2 : (es.filter (fun te => te.entry.path = p)).getLast? with
    | none =>
      rw [hl2] at h
      exact Option.noConfusion h
    | some te =>
      rw [hl2] at h
      have h2 : some te.entry = some e := h
      have hmem := List.mem_of_getLast?_eq_some hl2
      have hmem3 := (List.mem_filter.1 hmem).1
      cases h2
      exact ⟨te, hmem3, rfl⟩

theorem resolvePath_isSome {p : String} {es : List TaggedEntry}
    (h : p ∈ es.map (fun te => te.entry.path)) :
    (resolvePath p es).isSome := by
  obtain ⟨te, hte, hp⟩ := List.mem_map.1 h
  have hw : te ∈ es.filter (fun te => te.entry.path = p) :=
    List.mem_filter.2 ⟨hte, decide_eq_true hp⟩
  have hne : es.filter (fun te => te.entry.path = p) ≠ [] :=
    List.ne_nil_of_mem hw
  unfold resolvePath
  cases hl : ((es.filter (fun te => te.entry.path = p)).filter
      (fun te => te.passing)).getLast? with
  | some te2 => rfl
  | none =>
    show (((es.filter (fun te => te.entry.path = p)).getLast?).map
        (fun te => te.entry)).isSome = true
    have hs := List.getLast?_isSome.2 hne
    obtain ⟨y, hy⟩ := Option.isSome_iff_exists.1 hs
    rw [hy]
    rfl

theorem map_path_filterMap_resolve (l : List String) (es : List TaggedEntry)
    (h : ∀ p ∈ l, p ∈ es.map (fun te => te.entry.path)) :
    ((l.filterMap (fun p => resolvePath p es)).map (fun e => e.path)) = l := by
  induction l with
  | nil => rfl
  | cons p ps ih =>
    have hp := h p (List.mem_cons_self p ps)
    obtain ⟨e, he⟩ := Option.isSome_iff_exists.1 (resolvePath_isSome hp)
    rw [List.filterMap_cons_some (f := fun q => resolvePath q es) he,
      List.map_cons, resolvePath_path he,
      ih (fun q hq => h q (List.mem_cons_of_mem p hq))]

theorem finalizeEntries_paths (es : List TaggedEntry) :
    (finalizeEntries es).map (fun e => e.path)
      = dedupPaths ((keptEntries es).map (fun te => te.entry.path)) := by
  unfold finalizeEntries
  exact map_path_filterMap_resolve _ _ (fun p hp => mem_dedupPaths hp)

theorem finalizeEntries_nodup (es : List TaggedEntry) :
    ((finalizeEntries es).map (fun e => e.path)).Nodup := by
  rw [finalizeEntries_paths]
  exact dedupPaths_nodup _

theorem finalizeEntries_path_ne (es : List TaggedEntry) :
    ∀ e ∈ finalizeEntries es, e.path ≠ "" := by
  intro e he
  unfold finalizeEntries at he
  obtain ⟨p, hp, hres⟩ := List.mem_filterMap.1 he
  have hpath := resolvePath_path hres
  obtain ⟨te, hte, hpe⟩ := List.mem_map.1 (mem_dedupPaths hp)
  have h3 : te.entry.path ≠ "" := of_decide_eq_true (List.mem_filter.1 hte).2
  rw [hpath, ← hpe]
  exact h3

theorem mem_finalizeEntries {es : List TaggedEntry} {e : FileEntry}
    (he : e ∈ finalizeEntries es) : ∃ te ∈ es, te.entry = e := by
  unfold finalizeEntries at he
  obtain ⟨p, hp, hres⟩ := List.mem_filterMap.1 he
  obtain ⟨te, hte, heq⟩ := resolvePath_mem hres
  exact ⟨te, (List.mem_filter.1 hte).1, heq⟩

theorem finalizeEntries_complete {es : List TaggedEntry} {te : TaggedEntry}
    (hte : te ∈ es) (hne : te.entry.path ≠ "") :
    te.entry.path ∈ (finalizeEntries es).map (fun e => e.path) := by
  rw [finalizeEntries_paths]
  exact dedupPaths_mem
    (List.mem_map.2 ⟨te, List.mem_filter.2 ⟨hte, decide_eq_true hne⟩, rfl⟩)

theorem finalizeEntries_nonempty {es : List TaggedEntry}
    (h : ∃ te ∈ es, te.entry.path ≠ "") : finalizeEntries es ≠ [] := by
  obtain ⟨te, hte, hne⟩ := h
  intro hnil
  have hc := finalizeEntries_complete hte hne
  rw [hnil] at hc
  simp at hc

/-- C4: every RefinedOutput produced by the pipeline, whether built by the
Refiner or by the mechanical fallback merge, has pairwise distinct and
non-empty file paths at the moment materialization begins. -/
theorem refinedOutput_paths_unique_nonempty (narrative : String)
    (proposed : List TaggedEntry) (results : List GenerationResult) :
    (((refine narrative proposed).entries.map (fun e => e.path)).Nodup) ∧
    (∀ e ∈ (refine narrative proposed).entries, e.path ≠ "") ∧
    (((fallbackMerge results).entries.map (fun e => e.path)).Nodup) ∧
    (∀ e ∈ (fallbackMerge results).entries, e.path ≠ "") :=
  ⟨finalizeEntries_nodup proposed, finalizeEntries_path_ne proposed,
   finalizeEntries_nodup _, finalizeEntries_path_ne _⟩

theorem string_append_cancel_left {a b c : String} (h : a ++ b = a ++ c) :
    b = c := by
  have h2 : (a ++ b).data = (a ++ c).data := by rw [h]
  rw [String.data_append, String.data_append] at h2
  exact String.ext (List.append_cancel_left h2)

theorem pathKey_injective (runDir : String) :
    Function.Injective (fun s => runDir ++ "/" ++ s) := by
  intro x y hxy
  have h2 : (runDir ++ "/") ++ x = (runDir ++ "/") ++ y := hxy
  exact string_append_cancel_left h2

theorem foldl_writeFile (entries : List FileEntry) (runDir : String)
    (fs : List (String × String)) :
    entries.foldl (fun acc e => writeFile acc (runDir ++ "/" ++ e.path) e.content) fs
      = (entries.reverse.map (fun e => (runDir ++ "/" ++ e.path, e.content))) ++ fs := by
  induction entries generalizing fs with
  | nil => rfl
  | cons e es ih =>
    rw [List.foldl_cons, ih]
    show es.reverse.map (fun x => (runDir ++ "/" ++ x.path, x.content))
        ++ writeFile fs (runDir ++ "/" ++ e.path) e.content
      = ((e :: es).reverse).map (fun x => (runDir ++ "/" ++ x.path, x.content)) ++ fs
    rw [List.reverse_cons, List.map_append]
    simp [writeFile]

theorem find?_map_unique (l : List FileEntry) (fs : List (String × String))
    (runDir : String) (e : FileEntry) (hmem : e ∈ l)
    (hnodup : (l.map (fun x => runDir ++ "/" ++ x.path)).Nodup) :
    List.find? (fun q => q.1 = runDir ++ "/" ++ e.path)
      ((l.map (fun x => (runDir ++ "/" ++ x.path, x.content))) ++ fs)
      = some (runDir ++ "/" ++ e.path, e.content) := by
  induction l with
  | nil => simp at hmem
  | cons x xs ih =>
    rw [List.map_cons, List.cons_append]
    by_cases hk : (runDir ++ "/" ++ x.path) = (runDir ++ "/" ++ e.path)
    · have hpe : x.path = e.path := pathKey_injective runDir hk
      rcases List.mem_cons.1 hmem with hex | hex
      · subst hex
        exact List.find?_cons_of_pos _ (decide_eq_true rfl)
      · exfalso
        have hx1 : (runDir ++ "/" ++ x.path) ∉
            xs.map (fun y => runDir ++ "/" ++ y.path) :=
          (List.nodup_cons.1 hnodup).1
        exact hx1 (hk ▸ List.mem_map.2 ⟨e, hex, rfl⟩)
    · have hstep : List.find? (fun q => q.1 = runDir ++ "/" ++ e.path)
          ((runDir ++ "/" ++ x.path, x.content)
            :: (xs.map (fun y => (runDir ++ "/" ++ y.path, y.content)) ++ fs))
          = List.find? (fun q => q.1 = runDir ++ "/" ++ e.path)
            (xs.map (fun y => (runDir ++ "/" ++ y.path, y.content)) ++ fs) :=
        List.find?_cons_of_neg _ (by simpa using hk)
      rw [hstep]
      have hex : e ∈ xs := by
        rcases List.mem_cons.1 hmem with hex | hex
        · exact absurd (hex ▸ rfl) hk
        · exact hex
      exact ih hex (List.nodup_cons.1 hnodup).2

/-- C5: materialize is a faithful write of the RefinedOutput: the
RunResult lists one created path per file entry, and reading any of
these paths back from the file system returns exactly that entry's
content. Hypotheses: the RefinedOutput invariant (paths pairwise
distinct) and no entry named like the log file. -/
theorem materialize_roundtrip (runDir : String) (ro : RefinedOutput)
    (logContent : String) (fs : List (String × String))
    (hnodup : (ro.entries.map (fun e => e.path)).Nodup)
    (hlog : ∀ e ∈ ro.entries, e.path ≠ logFileName) :
    (materialize runDir ro logContent fs).2.created_files
      = ro.entries.map (fun e => runDir ++ "/" ++ e.path) ∧
    ∀ e ∈ ro.entries,
      readFile (materialize runDir ro logContent fs).1 (runDir ++ "/" ++ e.path)
        = some e.content := by
  constructor
  · rfl
  · intro e he
    show (List.find? (fun q => q.1 = runDir ++ "/" ++ e.path)
        ((runDir ++ "/" ++ logFileName, logContent)
          :: ro.entries.foldl
              (fun acc x => writeFile acc (runDir ++ "/" ++ x.path) x.content) fs)).map
        (fun q => q.2)
      = some e.content
    have hne : ¬ (runDir ++ "/" ++ logFileName = runDir ++ "/" ++ e.path) := by
      intro hcontra
      exact hlog e he (pathKey_injective runDir hcontra).symm
    rw [List.find?_cons_of_neg _ (by simpa using hne), foldl_writeFile]
    have hnodupkeys : (ro.entries.reverse.map
        (fun x => runDir ++ "/" ++ x.path)).Nodup := by
      rw [List.map_reverse]
      refine List.nodup_reverse.2 ?_
      have : ro.entries.map (fun x => runDir ++ "/" ++ x.path)
          = (ro.entries.map (fun e => e.path)).map (fun s => runDir ++ "/" ++ s) := by
        rw [List.map_map]
        rfl
      rw [this]
      exact List.Nodup.map (pathKey_injective runDir) hnodup
    rw [find?_map_unique ro.entries.reverse fs runDir e
      (List.mem_reverse.2 he) hnodupkeys]
    rfl

theorem materialize_roundtrip_witness :
    (materialize "run1" (RefinedOutput.mk "n" [FileEntry.mk "a.txt" none "A"])
        "log" []).2.created_files
      = [FileEntry.mk "a.txt" none "A"].map (fun e => "run1" ++ "/" ++ e.path) ∧
    readFile (materialize "run1"
        (RefinedOutput.mk "n" [FileEntry.mk "a.txt" none "A"]) "log" []).1
      ("run1" ++ "/" ++ (FileEntry.mk "a.txt" none "A").path)
      = some (FileEntry.mk "a.txt" none "A").content :=
  ⟨(materialize_roundtrip "run1"
      (RefinedOutput.mk "n" [FileEntry.mk "a.txt" none "A"]) "log" []
      (by decide) (by decide)).1,
   (materialize_roundtrip "run1"
      (RefinedOutput.mk "n" [FileEntry.mk "a.txt" none "A"]) "log" []
      (by decide) (by decide)).2
     (FileEntry.mk "a.txt" none "A") (by decide)⟩

theorem mem_taggedOf {results : List GenerationResult} {te : TaggedEntry} :
    te ∈ ((results.filter isPassing).map
        (fun r => r.entries.map (fun e => TaggedEntry.mk e true))).flatten
      ↔ ∃ r ∈ results, isPassing r = true ∧ ∃ e ∈ r.entries, te = TaggedEntry.mk e true := by
  constructor
  · intro h
    obtain ⟨s, hs, hte⟩ := List.mem_flatten.1 h
    obtain ⟨r, hr, hsr⟩ := List.mem_map.1 hs
    obtain ⟨e, he, heq⟩ := List.mem_map.1 (hsr ▸ hte)
    have hr2 := List.mem_filter.1 hr
    exact ⟨r, hr2.1, hr2.2, e, he, heq.symm⟩
  · intro h
    obtain ⟨r, hr, hpass, e, he, heq⟩ := h
    refine List.mem_flatten.2
      ⟨r.entries.map (fun e => TaggedEntry.mk e true), ?_, ?_⟩
    · exact List.mem_map.2 ⟨r, List.mem_filter.2 ⟨hr, hpass⟩, rfl⟩
    · exact heq ▸ List.mem_map.2 ⟨e, he, rfl⟩

/-- C6: when the Refiner has exhausted all retry attempts (its outcome is
none), the run still reaches Done, not Failed: the pipeline materializes
the mechanical fallback merge, whose created file set is non-empty, every
created path comes from a passing GenerationResult entry, and every
passing entry with a non-empty path is represented among the created
files. -/
theorem refiner_fallback_degraded
    (maxTasks : Nat) (decompRaw : Option (List SubTask))
    (execute : SubTask → GenerationResult) (runDir logContent : String)
    (fs : List (String × String)) (tasks : List SubTask)
    (hdec : decompose decompRaw maxTasks = Except.ok tasks)
    (hpass : ∃ r ∈ tasks.map execute, isPassing r = true ∧
      ∃ e ∈ r.entries, e.path ≠ "") :
    runPipeline maxTasks decompRaw execute none runDir logContent fs
      = RunOutcome.done
          (materialize runDir (fallbackMerge (tasks.map execute)) logContent fs).2
          (materialize runDir (fallbackMerge (tasks.map execute)) logContent fs).1 ∧
    (materialize runDir (fallbackMerge (tasks.map execute))
        logContent fs).2.created_files ≠ [] ∧
    (∀ p ∈ (materialize runDir (fallbackMerge (tasks.map execute))
        logContent fs).2.created_files,
      ∃ r ∈ tasks.map execute, isPassing r = true ∧
        ∃ e ∈ r.entries, p = runDir ++ "/" ++ e.path) ∧
    (∀ r ∈ tasks.map execute, isPassing r = true →
      ∀ e ∈ r.entries, e.path ≠ "" →
        (runDir ++ "/" ++ e.path) ∈ (materialize runDir
          (fallbackMerge (tasks.map execute)) logContent fs).2.created_files) := by
  have hcf : (materialize runDir (fallbackMerge (tasks.map execute))
        logContent fs).2.created_files
      = (finalizeEntries ((((tasks.map execute).filter isPassing).map
          (fun r => r.entries.map (fun e => TaggedEntry.mk e true))).flatten)).map
        (fun e => runDir ++ "/" ++ e.path) := rfl
  refine ⟨?_, ?_, ?_, ?_⟩
  · unfold runPipeline
    rw [hdec]
    rfl
  · rw [hcf]
    have htag : ∃ te ∈ (((tasks.map execute).filter isPassing).map
        (fun r => r.entries.map (fun e => TaggedEntry.mk e true))).flatten,
        te.entry.path ≠ "" := by
      obtain ⟨r, hr, hp, e, he, hne⟩ := hpass
      exact ⟨TaggedEntry.mk e true, mem_taggedOf.2 ⟨r, hr, hp, e, he, rfl⟩, hne⟩
    intro hnil
    exact finalizeEntries_nonempty htag (List.map_eq_nil_iff.1 hnil)
  · intro p hp
    rw [hcf] at hp
    obtain ⟨e, he, hpe⟩ := List.mem_map.1 hp
    obtain ⟨te, hte, hteq⟩ := mem_finalizeEntries he
    obtain ⟨r, hr, hpass2, e0, he0, hteq2⟩ := mem_taggedOf.1 hte
    have he0e : e0 = e := by
      rw [hteq2] at hteq
      exact hteq
    refine ⟨r, hr, hpass2, e0, he0, ?_⟩
    rw [he0e, hpe]
  · intro r hr hpassr e he hne
    have hte : TaggedEntry.mk e true ∈ (((tasks.map execute).filter isPassing).map
        (fun r => r.entries.map (fun e => TaggedEntry.mk e true))).flatten :=
      mem_taggedOf.2 ⟨r, hr, hpassr, e, he, rfl⟩
    have hcomp := finalizeEntries_complete hte hne
    obtain ⟨e2, he2, he2p⟩ := List.mem_map.1 hcomp
    rw [hcf]
    exact List.mem_map.2 ⟨e2, he2, by rw [he2p]⟩

theorem refiner_fallback_degraded_witness :
    runPipeline 3 (some [SubTask.mk 0 "t" "d" none none])
      (fun _ => GenerationResult.mk 0 "raw" [FileEntry.mk "a.txt" none "A"]
        ValidationStatus.passed 1)
      none "run1" "log" []
      = RunOutcome.done
          (materialize "run1" (fallbackMerge ([SubTask.mk 0 "t" "d" none none].map
            (fun _ => GenerationResult.mk 0 "raw" [FileEntry.mk "a.txt" none "A"]
              ValidationStatus.passed 1))) "log" []).2
          (materialize "run1" (fallbackMerge ([SubTask.mk 0 "t" "d" none none].map
            (fun _ => GenerationResult.mk 0 "raw" [FileEntry.mk "a.txt" none "A"]
              ValidationStatus.passed 1))) "log" []).1 ∧
    (materialize "run1" (fallbackMerge ([SubTask.mk 0 "t" "d" none none].map
        (fun _ => GenerationResult.mk 0 "raw" [FileEntry.mk "a.txt" none "A"]
          ValidationStatus.passed 1))) "log" []).2.created_files ≠ [] :=
  ⟨(refiner_fallback_degraded 3 (some [SubTask.mk 0 "t" "d" none none])
      (fun _ => GenerationResult.mk 0 "raw" [FileEntry.mk "a.txt" none "A"]
        ValidationStatus.passed 1)
      "run1" "log" [] [SubTask.mk 0 "t" "d" none none] rfl (by decide)).1,
   (refiner_fallback_degraded 3 (some [SubTask.mk 0 "t" "d" none none])
      (fun _ => GenerationResult.mk 0 "raw" [FileEntry.mk "a.txt" none "A"]
        ValidationStatus.passed 1)
      "run1" "log" [] [SubTask.mk 0 "t" "d" none none] rfl (by decide)).2.1⟩
